import Mathlib

/-!
Shallow embedding of the autoscout24-scraper crawl-and-extract pipeline:
the text/number normalizers of `src/utils/data_cleaner.py`, the dealer
aggregation of `src/extractors/dealer_extractor.py`, and the URL
preparation / fetch orchestration of `src/extractors/listing_extractor.py`.
Strings are modelled as Lean `String` (a wrapped `List Char`); the ASCII
whitespace set of Python's `str.strip` / regex `\s` is used; the page
fetch plus search-page parse composition is modelled as a finite lookup
table from page URL to parsed content, with `none` standing for a failed
(falsy) fetch.
-/

namespace Autoscout

/-! Character and string primitives. -/

/-- ASCII whitespace, the characters stripped by Python's `str.strip()` and
matched by the regex class `\s` (space, tab, newline, carriage return,
vertical tab, form feed). -/
def isWs (c : Char) : Bool :=
  c = ' ' || c = '\t' || c = '\n' || c = '\r' || c = Char.ofNat 11 || c = Char.ofNat 12

/-- Value of a string of decimal digits, as built by Python's `int(...)`. -/
def natOfDigits (l : List Char) : Nat :=
  l.foldl (fun n c => n * 10 + (c.toNat - 48)) 0

/-- Does `needle` occur as a contiguous subsequence of the list? -/
def containsSeq (needle : List Char) : List Char → Bool
  | [] => needle.isEmpty
  | c :: rest => needle.isPrefixOf (c :: rest) || containsSeq needle rest

/-- Python's substring containment `needle in hay`. -/
def hasSubstr (needle hay : String) : Bool :=
  containsSeq needle.toList hay.toList

/-- Python's `str.upper()` (ASCII model). -/
def upperStr (s : String) : String :=
  (s.toList.map Char.toUpper).asString

/-- Remove trailing whitespace characters (the right half of `str.strip()`). -/
def dropTrailingWs : List Char → List Char
  | [] => []
  | c :: rest =>
    match dropTrailingWs rest with
    | [] => if isWs c then [] else [c]
    | x :: xs => c :: x :: xs

/-- Python's `str.strip()`: drop leading and trailing whitespace. -/
def pyStripChars (l : List Char) : List Char :=
  dropTrailingWs (l.dropWhile isWs)

/-- Python's `str.strip()` on a `String`. -/
def pyStripStr (s : String) : String :=
  (pyStripChars s.toList).asString

/-- Worker for `re.sub(r"\s+", " ", text)`: replace every maximal whitespace
run by a single space. The flag records whether the previous character was
part of a whitespace run already replaced. -/
def collapseWsGo : Bool → List Char → List Char
  | _, [] => []
  | inRun, c :: rest =>
    if isWs c then
      if inRun then collapseWsGo true rest else ' ' :: collapseWsGo true rest
    else c :: collapseWsGo false rest

/-- Python's `re.sub(r"\s+", " ", text)`. -/
def collapseWs (l : List Char) : List Char := collapseWsGo false l

/-- Holds when the list does not start with a whitespace character. -/
def noLeadWs (l : List Char) : Bool :=
  match l.head? with
  | none => true
  | some c => !isWs c

/-- Holds when the list does not end with a whitespace character. -/
def noTrailWs (l : List Char) : Bool :=
  match l.getLast? with
  | none => true
  | some c => !isWs c

/-- Holds when every whitespace character of the list is a single space
followed by a non-whitespace character: all internal whitespace runs are
already collapsed. -/
def collapsedWsOk : List Char → Bool
  | [] => true
  | [c] => !isWs c || c == ' '
  | a :: b :: rest => (!isWs a || (a == ' ' && !isWs b)) && collapsedWsOk (b :: rest)

/-- The shape of a cleaned text value: non-empty, no leading or trailing
whitespace, and all internal whitespace runs collapsed to single spaces. -/
def CleanShape (s : String) : Prop :=
  s ≠ "" ∧ noLeadWs s.toList = true ∧ noTrailWs s.toList = true ∧
    collapsedWsOk s.toList = true

/-- An optional text field that is either absent or a cleaned non-empty
string (never the empty string). -/
def IsCleanOpt (o : Option String) : Prop :=
  ∀ s, o = some s → CleanShape s

/-- Embedding of `data_cleaner.clean_text`: strip, collapse internal
whitespace runs to single spaces, and map an empty result to `None`. -/
def clean_text : Option String → Option String
  | none => none
  | some v =>
    if (collapseWs (pyStripChars v.toList)).isEmpty then none
    else some (collapseWs (pyStripChars v.toList)).asString

/-- The digit characters surviving `str(value).replace(".", "").replace(" ", "")`
followed by `re.findall(r"\d+", ...)` joined together: removing dots and
spaces and then concatenating all digit runs keeps exactly the digit
characters of the string, in order. -/
def extract_number_digits (s : String) : List Char :=
  ((s.toList.filter (fun c => !(c == '.'))).filter (fun c => !(c == ' '))).filter Char.isDigit

/-- Embedding of `data_cleaner.extract_number`: all digit characters of the
string joined and parsed as an integer, absent when the input is falsy or
holds no digit. (The `int` call cannot fail on a digit string, so the
`ValueError` branch of the source is dead.) -/
def extract_number : Option String → Option Nat
  | none => none
  | some s =>
    if s = "" then none
    else if (extract_number_digits s).isEmpty then none
    else some (natOfDigits (extract_number_digits s))

/-- Embedding of `data_cleaner.parse_price`. Falsy input gives `(None, None)`;
otherwise the stripped string is scanned for a currency by precedence
(`€`/`EUR`, then `$`/`USD`, then `CHF`), and all non-digit characters are
removed before the integer parse; no digits gives an absent price with the
detected currency kept. -/
def parse_price : Option String → Option Nat × Option String
  | none => (none, none)
  | some ps =>
    if ps = "" then (none, none)
    else
      (if ((pyStripStr ps).toList.filter Char.isDigit).isEmpty then none
       else some (natOfDigits ((pyStripStr ps).toList.filter Char.isDigit)),
       if hasSubstr "€" (pyStripStr ps) || hasSubstr "EUR" (upperStr (pyStripStr ps)) then
         some "EUR"
       else if hasSubstr "$" (pyStripStr ps) || hasSubstr "USD" (upperStr (pyStripStr ps)) then
         some "USD"
       else if hasSubstr "CHF" (upperStr (pyStripStr ps)) then some "CHF"
       else none)

/-- The currency-detection rule in the spec's words: detect a currency by
symbol/code precedence, `€`/`EUR` first, then `$`/`USD`, then `CHF`, else
absent. Stated separately from `parse_price` so the two can be compared. -/
def specCurrency (s : String) : Option String :=
  if hasSubstr "€" s || hasSubstr "EUR" (upperStr s) then some "EUR"
  else if hasSubstr "$" s || hasSubstr "USD" (upperStr s) then some "USD"
  else if hasSubstr "CHF" (upperStr s) then some "CHF"
  else none

/-- The numeric-price rule in the spec's words: strip all non-digit
characters and parse the remainder as an integer, absent when no digit
remains. -/
def specPrice (s : String) : Option Nat :=
  if (s.toList.filter Char.isDigit).isEmpty then none
  else some (natOfDigits (s.toList.filter Char.isDigit))

/-- Embedding of `data_cleaner.parse_mileage`, which just delegates. -/
def parse_mileage (mileage : Option String) : Option Nat :=
  extract_number mileage

/-- Prefix match for the literal unit of the power regexes, case-folded when
the regex carries `re.IGNORECASE`. -/
def matchUnit (unit : List Char) (ci : Bool) (l : List Char) : Bool :=
  if ci then (unit.map Char.toLower).isPrefixOf (l.map Char.toLower)
  else unit.isPrefixOf l

/-- Leftmost search for the regex `(\d+)\s*<unit>`: scan left to right,
accumulate the current maximal digit run, and at its end test for the unit
after optional whitespace. Matching from inside a digit run succeeds exactly
when matching from its start does (the pattern's tail only looks past the
run), so the run-wise scan realizes `re.search`'s leftmost-match rule with
the greedy `(\d+)` group. -/
def scanPow (unit : List Char) (ci : Bool) : Option Nat → List Char → Option Nat
  | run?, [] =>
    match run? with
    | some n => if matchUnit unit ci [] then some n else none
    | none => none
  | run?, c :: rest =>
    if c.isDigit then
      scanPow unit ci (some ((run?.getD 0) * 10 + (c.toNat - 48))) rest
    else
      match run? with
      | some n =>
        if matchUnit unit ci ((c :: rest).dropWhile isWs) then some n
        else scanPow unit ci none rest
      | none => scanPow unit ci none rest

/-- Embedding of `data_cleaner.parse_power`: independent searches for
`(\d+)\s*kW` (case-sensitive) and `(\d+)\s*hp` (case-insensitive). -/
def parse_power : Option String → Option Nat × Option Nat
  | none => (none, none)
  | some s =>
    if s = "" then (none, none)
    else (scanPow "kW".toList false none s.toList, scanPow "hp".toList true none s.toList)

/-! The record model: `RawRecord` is the flat field record produced by
`ListingParser.parse_listing_page` (single-valued fields are optional text;
the feature and image fields can be a list, a string, absent, or - through
the defensive `else` branch of the source - any other value, carried here
as its `str()` rendering). -/

inductive FieldValue where
  | absent
  | text (s : String)
  | items (l : List String)
  | other (shown : String)
deriving DecidableEq

structure RawRecord where
  title : Option String
  url : Option String
  mark : Option String
  model : Option String
  modelVersion : Option String
  location : Option String
  dealerName : Option String
  dealerRatings : Option String
  price : Option String
  milage : Option String
  gearbox : Option String
  firstRegistration : Option String
  fuelType : Option String
  power : Option String
  seller : Option String
  contactName : Option String
  contactPhone : Option String
  bodyType : Option String
  drivetrain : Option String
  seats : Option String
  engineSize : Option String
  gears : Option String
  emissionClass : Option String
  colour : Option String
  manufacturerColour : Option String
  productionDate : Option String
  comfort : FieldValue
  media : FieldValue
  safety : FieldValue
  extras : FieldValue
  images : FieldValue

structure NormalizedRecord where
  title : Option String
  url : Option String
  mark : Option String
  model : Option String
  modelVersion : Option String
  location : Option String
  dealerName : Option String
  dealerRatings : Option String
  price : Option String
  milage : Option String
  gearbox : Option String
  firstRegistration : Option String
  fuelType : Option String
  power : Option String
  seller : Option String
  contactName : Option String
  contactPhone : Option String
  bodyType : Option String
  drivetrain : Option String
  seats : Option String
  engineSize : Option String
  gears : Option String
  emissionClass : Option String
  colour : Option String
  manufacturerColour : Option String
  productionDate : Option String
  rawPrice : Option Nat
  currency : Option String
  mileageKm : Option Nat
  powerKW : Option Nat
  powerHP : Option Nat
  seatsNum : Option Nat
  engineSizeCC : Option Nat
  gearsNum : Option Nat
  comfort : List (Option String)
  media : List (Option String)
  safety : List (Option String)
  extras : List (Option String)
  images : List String

/-- Python's `re.split(r"[;,]", s)`: split at every `;` or `,`. -/
def splitSC : List Char → List (List Char)
  | [] => [[]]
  | c :: rest =>
    if c = ';' || c = ',' then [] :: splitSC rest
    else
      match splitSC rest with
      | [] => [[c]]
      | p :: ps => (c :: p) :: ps

/-- The feature-list normalization of `normalize_listing`: a list is cleaned
element-wise keeping the truthy results; a string is split on `;`/`,` and
cleaned the same way; `None` becomes the empty list; any other value is
wrapped as the one-element list of its cleaned `str()` rendering (which may
be a `None` entry - the source does not filter in that branch). -/
def normFeature : FieldValue → List (Option String)
  | .items l => (l.filterMap (fun v => clean_text (some v))).map some
  | .text s => ((splitSC s.toList).filterMap (fun p => clean_text (some p.asString))).map some
  | .absent => []
  | .other shown => [clean_text (some shown)]

/-- One step of the image loop: clean, keep when truthy and not yet seen
(the `seen` set always holds exactly the accumulated output). -/
def imgStep (acc : List String) (img : String) : List String :=
  match clean_text (some img) with
  | none => acc
  | some s => if s ∈ acc then acc else acc ++ [s]

def imagesFold (l : List String) : List String := l.foldl imgStep []

/-- The image normalization of `normalize_listing`: `listing.get("images") or []`
turns falsy values into the empty list, a string is wrapped as a singleton,
a list is cleaned and deduplicated preserving first occurrences, and any
other value yields the empty list. -/
def normalizeImages : FieldValue → List String
  | .absent => []
  | .text s => if s = "" then [] else imagesFold [s]
  | .items l => imagesFold l
  | .other _ => []

/-- Embedding of `data_cleaner.normalize_listing`: clean every single-valued
text field, derive the numeric fields from the cleaned text (a derived key
is written only when the parse succeeded, modelled as `Option`), and
canonicalize the feature and image lists. -/
def normalize_listing (r : RawRecord) : NormalizedRecord :=
  { title := clean_text r.title
    url := clean_text r.url
    mark := clean_text r.mark
    model := clean_text r.model
    modelVersion := clean_text r.modelVersion
    location := clean_text r.location
    dealerName := clean_text r.dealerName
    dealerRatings := clean_text r.dealerRatings
    price := clean_text r.price
    milage := clean_text r.milage
    gearbox := clean_text r.gearbox
    firstRegistration := clean_text r.firstRegistration
    fuelType := clean_text r.fuelType
    power := clean_text r.power
    seller := clean_text r.seller
    contactName := clean_text r.contactName
    contactPhone := clean_text r.contactPhone
    bodyType := clean_text r.bodyType
    drivetrain := clean_text r.drivetrain
    seats := clean_text r.seats
    engineSize := clean_text r.engineSize
    gears := clean_text r.gears
    emissionClass := clean_text r.emissionClass
    colour := clean_text r.colour
    manufacturerColour := clean_text r.manufacturerColour
    productionDate := clean_text r.productionDate
    rawPrice := (parse_price (clean_text r.price)).1
    currency := (parse_price (clean_text r.price)).2
    mileageKm := parse_mileage (clean_text r.milage)
    powerKW := (parse_power (clean_text r.power)).1
    powerHP := (parse_power (clean_text r.power)).2
    seatsNum := extract_number (clean_text r.seats)
    engineSizeCC := extract_number (clean_text r.engineSize)
    gearsNum := extract_number (clean_text r.gears)
    comfort := normFeature r.comfort
    media := normFeature r.media
    safety := normFeature r.safety
    extras := normFeature r.extras
    images := normalizeImages r.images }

/-- A raw record with every field missing, used to build sample records. -/
def emptyRaw : RawRecord :=
  ⟨none, none, none, none, none, none, none, none, none, none, none, none, none,
   none, none, none, none, none, none, none, none, none, none, none, none, none,
   .absent, .absent, .absent, .absent, .absent⟩

/-! Dealer aggregation, `dealer_extractor.DealerExtractor.build_summary`.
The summary dict and the `defaultdict` counter are modelled as association
lists updated in place (Python dicts keep insertion order and in-place
updates do not move a key). -/

structure DealerRec where
  dealerName : Option String
  location : Option String
  dealerRatings : Option String
deriving DecidableEq

structure DealerEntry where
  dealerName : String
  location : Option String
  dealerRatings : Option String
  listingCount : Nat
deriving DecidableEq

/-- The key computation `(rec.get("dealerName") or "").strip()` with the
`"Unknown dealer"` sentinel for a blank result. -/
def dealerKeyOf (r : DealerRec) : String :=
  if pyStripStr (r.dealerName.getD "") = "" then "Unknown dealer"
  else pyStripStr (r.dealerName.getD "")

/-- Update the value stored at key `k` in place, leaving other keys alone. -/
def mapValAt {β : Type} (l : List (String × β)) (k : String) (g : β → β) :
    List (String × β) :=
  l.map (fun p => if p.1 = k then (p.1, g p.2) else p)

/-- Python dict assignment `d[k] = v`: overwrite in place when the key is
present, append otherwise. -/
def assocSet {β : Type} (l : List (String × β)) (k : String) (v : β) :
    List (String × β) :=
  if (List.lookup k l).isSome then mapValAt l k (fun _ => v) else l ++ [(k, v)]

/-- One iteration of `build_summary`'s loop: bump the counter for the
record's dealer key, `setdefault` the summary entry (inserting location and
ratings only when the key is new), then assign the entry's `listingCount`
from the counter. -/
def buildStep (st : List (String × Nat) × List (String × DealerEntry))
    (r : DealerRec) : List (String × Nat) × List (String × DealerEntry) :=
  (assocSet st.1 (dealerKeyOf r) ((List.lookup (dealerKeyOf r) st.1).getD 0 + 1),
   mapValAt
     (match List.lookup (dealerKeyOf r) st.2 with
      | some _ => st.2
      | none => st.2 ++ [(dealerKeyOf r, ⟨dealerKeyOf r, r.location, r.dealerRatings, 0⟩)])
     (dealerKeyOf r)
     (fun e => { e with listingCount := (List.lookup (dealerKeyOf r) st.1).getD 0 + 1 }))

/-- Embedding of `DealerExtractor.build_summary`. -/
def build_summary (listings : List DealerRec) : List (String × DealerEntry) :=
  (listings.foldl buildStep ([], [])).2

/-- Loop invariant of `build_summary`: after processing the records `done`,
the counter maps a key to the number of processed records with that key
(and holds no key with count zero), and the summary maps a key to an entry
whose location and ratings come from the first processed record with that
key and whose count is the number of such records. -/
def SummaryInv (done : List DealerRec)
    (st : List (String × Nat) × List (String × DealerEntry)) : Prop :=
  ∀ k : String,
    (List.lookup k st.1 =
      if (done.filter (fun x => dealerKeyOf x == k)).length = 0 then none
      else some (done.filter (fun x => dealerKeyOf x == k)).length) ∧
    (List.lookup k st.2 =
      match done.find? (fun x => dealerKeyOf x == k) with
      | none => none
      | some r0 => some ⟨k, r0.location, r0.dealerRatings,
          (done.filter (fun x => dealerKeyOf x == k)).length⟩)

/-! URL classification and seed preparation, `listing_extractor.ListingExtractor`. -/

/-- Detection of a URL scheme prefix, as `urllib.parse.urlparse` does it: a
run of letters, digits, `+`, `-` or `.` ending at the first `:`; the part
after the colon is returned. -/
def afterScheme : List Char → Option (List Char)
  | [] => none
  | ':' :: rest => some rest
  | c :: rest =>
    if c.isAlphanum || c = '+' || c = '-' || c = '.' then afterScheme rest
    else none

/-- The `path` component of `urlparse(url)`, lowercased as in
`_is_detail_url`: drop fragment and query, drop `scheme:` and a `//netloc`
authority, and keep everything from the first following `/`. (The params
split on `;` in the last segment is omitted: it removes only a trailing
piece without any `/`, which cannot affect the `/angebote/` and `/offers/`
containment checks below.) -/
def urlPath (url : String) : String :=
  ((match (match afterScheme ((url.toList.takeWhile (fun a => !(a == '#'))).takeWhile
              (fun a => !(a == '?'))) with
     | some rest => rest
     | none => (url.toList.takeWhile (fun a => !(a == '#'))).takeWhile (fun a => !(a == '?'))) with
    | '/' :: '/' :: rest2 => rest2.dropWhile (fun a => !(a == '/'))
    | other => other).map Char.toLower).asString

/-- Embedding of `ListingExtractor._is_detail_url`. -/
def is_detail_url (url : String) : Bool :=
  hasSubstr "/angebote/" (urlPath url) || hasSubstr "/offers/" (urlPath url)

/-- The parsed content of one search page: the listing URLs found on it and
the optional next-page link, the output of `ListingParser.parse_search_page`. -/
structure SearchPage where
  pageUrls : List String
  nextUrl : Option String

/-- The crawl environment: the composition of `_fetch_url` and
`parse_search_page` as a finite table from page URL to parsed page, with
missing entries standing for a failed (falsy-body) fetch. -/
abbrev CrawlEnv := List (String × SearchPage)

/-- The accumulation `for u in page_urls: if u not in listing_urls: append`. -/
def addUnique (acc urls : List String) : List String :=
  urls.foldl (fun a u => if u ∈ a then a else a ++ [u]) acc

/-- The pagination loop of `_collect_listing_urls_from_search`, instrumented
with a trace of the page URLs passed to `_fetch_url`. The loop stops on a
falsy next URL, on reaching `max_records` collected URLs, on a next URL
already visited, on a failed fetch, and on a page without next link. The
`fuel` argument only bounds the recursion depth; `collectLoop_fuel_stable`
below shows the visited set makes `env.length + 1` iterations always enough,
so the wrapper `collect_listing_urls_t` computes the loop's true result. -/
def collectLoop (env : CrawlEnv) (maxRecords : Nat) :
    Nat → Option String → List String → List String → List String →
    List String × List String
  | 0, _, _, acc, trace => (acc, trace)
  | _ + 1, none, _, acc, trace => (acc, trace)
  | fuel + 1, some url, visited, acc, trace =>
    if url = "" then (acc, trace)
    else if maxRecords ≤ acc.length then (acc, trace)
    else if url ∈ visited then (acc, trace)
    else
      match List.lookup url env with
      | none => (acc, trace ++ [url])
      | some page =>
        match page.nextUrl with
        | none => (addUnique acc page.pageUrls, trace ++ [url])
        | some nu =>
          collectLoop env maxRecords fuel (some nu) (url :: visited)
            (addUnique acc page.pageUrls) (trace ++ [url])

/-- Embedding of `_collect_listing_urls_from_search`, returning the collected
listing URLs together with the trace of fetched page URLs. -/
def collect_listing_urls_t (env : CrawlEnv) (maxRecords : Nat) (startUrl : String) :
    List String × List String :=
  collectLoop env maxRecords (env.length + 1) (some startUrl) [] [] []

/-- The seed loop of `_prepare_listing_urls`: strip each seed, skip empties,
keep detail URLs directly (deduplicated, with no cap check), expand search
URLs and merge, and break out of the loop - returning early - as soon as
the merged accumulator has reached `max_records` after a search seed. The
second component traces every fetched page URL. -/
def prepareGo (env : CrawlEnv) (maxRecords : Nat) :
    List String → List String → List String → List String × List String
  | [], acc, trace => (acc, trace)
  | s :: rest, acc, trace =>
    if pyStripStr s = "" then prepareGo env maxRecords rest acc trace
    else if is_detail_url (pyStripStr s) then
      prepareGo env maxRecords rest
        (if pyStripStr s ∈ acc then acc else acc ++ [pyStripStr s]) trace
    else if maxRecords ≤
        (addUnique acc (collect_listing_urls_t env maxRecords (pyStripStr s)).1).length then
      (addUnique acc (collect_listing_urls_t env maxRecords (pyStripStr s)).1,
       trace ++ (collect_listing_urls_t env maxRecords (pyStripStr s)).2)
    else
      prepareGo env maxRecords rest
        (addUnique acc (collect_listing_urls_t env maxRecords (pyStripStr s)).1)
        (trace ++ (collect_listing_urls_t env maxRecords (pyStripStr s)).2)

/-- Embedding of `_prepare_listing_urls` with the fetch trace: run the seed
loop and truncate the result to `max_records`. -/
def prepareT (env : CrawlEnv) (maxRecords : Nat) (startUrls : List String) :
    List String × List String :=
  (if maxRecords < (prepareGo env maxRecords startUrls [] []).1.length then
     (prepareGo env maxRecords startUrls [] []).1.take maxRecords
   else (prepareGo env maxRecords startUrls [] []).1,
   (prepareGo env maxRecords startUrls [] []).2)

/-- The prepared listing-URL list that `scrape` dispatches work for. -/
def prepare_listing_urls (env : CrawlEnv) (maxRecords : Nat)
    (startUrls : List String) : List String :=
  (prepareT env maxRecords startUrls).1

/-- Number of environment keys not yet visited, the termination measure of
the pagination loop: every iteration that recurses has just fetched an
unvisited key and added it to the visited set. -/
def unvisitedKeys (env : CrawlEnv) (visited : List String) : Nat :=
  ((env.map Prod.fst).filter (fun k => !(decide (k ∈ visited)))).length

/-! The concurrent fetch stage of `ListingExtractor.scrape`. Each dispatched
URL's task either yields a record, yields nothing (failed fetch), or raises;
`as_completed` delivers the outcomes in some permutation of the dispatched
URLs, and the collection loop appends a record, skips a falsy result, and
catches-and-skips an exception, so nothing escapes the call. -/

inductive TaskOutcome where
  | ok (record : NormalizedRecord)
  | fetchFail
  | raised

def isOk : TaskOutcome → Bool
  | .ok _ => true
  | .fetchFail => false
  | .raised => false

/-- One iteration of `scrape`'s collection loop: append the record of a
successful task, skip a task whose fetch failed (falsy result), and skip -
after catching - a task that raised. -/
def collectStep (outcome : String → TaskOutcome)
    (results : List NormalizedRecord) (u : String) : List NormalizedRecord :=
  match outcome u with
  | .ok r => results ++ [r]
  | .fetchFail => results
  | .raised => results

/-- The `as_completed` collection loop of `scrape`: walk the completion
order applying `collectStep`. -/
def scrapeCollect (outcome : String → TaskOutcome) (completed : List String) :
    List NormalizedRecord :=
  completed.foldl (collectStep outcome) []

/-! Lemmas about stripping and whitespace collapsing. -/

theorem dropTrailingWs_cons (c : Char) (t : List Char) :
    dropTrailingWs (c :: t) =
      match dropTrailingWs t with
      | [] => if isWs c then [] else [c]
      | x :: xs => c :: x :: xs := rfl

theorem collapseWsGo_cons_ws (b : Bool) (c : Char) (t : List Char) (h : isWs c = true) :
    collapseWsGo b (c :: t) = (if b then [] else [' ']) ++ collapseWsGo true t := by
  cases b <;> simp [collapseWsGo, h]

theorem collapseWsGo_cons_not (b : Bool) (c : Char) (t : List Char) (h : isWs c = false) :
    collapseWsGo b (c :: t) = c :: collapseWsGo false t := by
  cases b <;> simp [collapseWsGo, h]

theorem noTrailWs_cons_cons (a b : Char) (t : List Char) :
    noTrailWs (a :: b :: t) = noTrailWs (b :: t) := by
  unfold noTrailWs
  rw [List.getLast?_cons_cons]

theorem noLeadWs_dropWhile (l : List Char) : noLeadWs (l.dropWhile isWs) = true := by
  induction l with
  | nil => rfl
  | cons c t ih =>
    by_cases h : isWs c = true
    · simpa [List.dropWhile_cons, h] using ih
    · simp [List.dropWhile_cons, h, noLeadWs]

theorem dropTrailingWs_head (l : List Char) :
    dropTrailingWs l = [] ∨ (dropTrailingWs l).head? = l.head? := by
  induction l with
  | nil => exact Or.inl rfl
  | cons c t ih =>
    cases h : dropTrailingWs t with
    | nil =>
      by_cases hc : isWs c = true
      · left; simp [dropTrailingWs, h, hc]
      · right; simp [dropTrailingWs, h, hc]
    | cons x xs => right; simp [dropTrailingWs, h]

theorem noTrailWs_dropTrailingWs (l : List Char) :
    noTrailWs (dropTrailingWs l) = true := by
  induction l with
  | nil => rfl
  | cons c t ih =>
    cases h : dropTrailingWs t with
    | nil =>
      by_cases hc : isWs c = true
      · simp [dropTrailingWs, h, hc, noTrailWs]
      · simp [dropTrailingWs, h, hc, noTrailWs]
    | cons x xs =>
      rw [h] at ih
      simp only [dropTrailingWs, h]
      simpa [noTrailWs, List.getLast?_cons_cons] using ih

theorem noLeadWs_pyStrip (l : List Char) : noLeadWs (pyStripChars l) = true := by
  unfold pyStripChars
  rcases dropTrailingWs_head (l.dropWhile isWs) with h | h
  · rw [h]; rfl
  · unfold noLeadWs
    rw [h]
    have h2 := noLeadWs_dropWhile l
    unfold noLeadWs at h2
    exact h2

theorem noTrailWs_pyStrip (l : List Char) : noTrailWs (pyStripChars l) = true :=
  noTrailWs_dropTrailingWs (l.dropWhile isWs)

theorem dropWhile_eq_self_of_noLead (l : List Char) (h : noLeadWs l = true) :
    l.dropWhile isWs = l := by
  cases l with
  | nil => rfl
  | cons c t =>
    unfold noLeadWs at h
    simp at h
    simp [List.dropWhile_cons, h]

theorem dropTrailingWs_eq_self_of_noTrail (l : List Char) (h : noTrailWs l = true) :
    dropTrailingWs l = l := by
  induction l with
  | nil => rfl
  | cons c t ih =>
    cases t with
    | nil =>
      unfold noTrailWs at h
      simp at h
      simp [dropTrailingWs, h]
    | cons x xs =>
      have ht : noTrailWs (x :: xs) = true := by
        rwa [noTrailWs_cons_cons] at h
      have hd := ih ht
      rw [dropTrailingWs_cons, hd]

theorem pyStripChars_eq_self (l : List Char) (h1 : noLeadWs l = true)
    (h2 : noTrailWs l = true) : pyStripChars l = l := by
  unfold pyStripChars
  rw [dropWhile_eq_self_of_noLead l h1, dropTrailingWs_eq_self_of_noTrail l h2]

theorem noLeadWs_collapseWsGo_true (l : List Char) :
    noLeadWs (collapseWsGo true l) = true := by
  induction l with
  | nil => rfl
  | cons c t ih =>
    by_cases h : isWs c = true
    · simpa [collapseWsGo, h] using ih
    · simp [collapseWsGo, h, noLeadWs]

theorem noLeadWs_collapseWs (l : List Char) (h : noLeadWs l = true) :
    noLeadWs (collapseWs l) = true := by
  cases l with
  | nil => rfl
  | cons c t =>
    unfold noLeadWs at h
    simp at h
    simp [collapseWs, collapseWsGo, h, noLeadWs]

theorem collapsedWsOk_cons (c : Char) (l : List Char) (hc : isWs c = false)
    (hl : collapsedWsOk l = true) : collapsedWsOk (c :: l) = true := by
  cases l with
  | nil => simp [collapsedWsOk, hc]
  | cons b t => simp [collapsedWsOk, hc, hl]

theorem collapsedWsOk_space_cons (l : List Char) (hl : collapsedWsOk l = true)
    (hh : noLeadWs l = true) : collapsedWsOk (' ' :: l) = true := by
  cases l with
  | nil => decide
  | cons b t =>
    have hb : isWs b = false := by
      unfold noLeadWs at hh
      simpa using hh
    simp [collapsedWsOk, hb, hl]

theorem collapsedWsOk_collapseWsGo (l : List Char) :
    ∀ b : Bool, collapsedWsOk (collapseWsGo b l) = true := by
  induction l with
  | nil => intro b; rfl
  | cons c t ih =>
    intro b
    by_cases h : isWs c = true
    · cases b with
      | true => simpa [collapseWsGo, h] using ih true
      | false =>
        simp only [collapseWsGo, h, if_true]
        exact collapsedWsOk_space_cons _ (ih true) (noLeadWs_collapseWsGo_true t)
    · simp only [collapseWsGo, h, if_false, Bool.false_eq_true, if_neg]
      exact collapsedWsOk_cons c _ (by simpa using h) (ih false)

theorem collapseWsGo_eq_self (l : List Char) (h : collapsedWsOk l = true) :
    collapseWsGo false l = l := by
  induction l with
  | nil => rfl
  | cons c t ih =>
    cases t with
    | nil =>
      by_cases hc : isWs c = true
      · have hsp : c = ' ' := by
          simp [collapsedWsOk, hc] at h
          exact h
        subst hsp
        decide
      · rw [collapseWsGo_cons_not false c [] (by simpa using hc)]
        rfl
    | cons b u =>
      have h1 : (!isWs c || (c == ' ' && !isWs b)) = true ∧ collapsedWsOk (b :: u) = true := by
        simpa [collapsedWsOk, Bool.and_eq_true] using h
      have hrec := ih h1.2
      by_cases hc : isWs c = true
      · have hsp : c = ' ' ∧ isWs b = false := by
          have h2 := h1.1
          simp [hc] at h2
          exact ⟨h2.1, h2.2⟩
        obtain ⟨hc', hb⟩ := hsp
        subst hc'
        have hbu : collapseWsGo false (b :: u) = b :: collapseWsGo false u :=
          collapseWsGo_cons_not false b u hb
        have hcons : b :: collapseWsGo false u = b :: u := by
          rw [← hbu]
          exact hrec
        have hu : collapseWsGo false u = u := by
          injection hcons
        rw [collapseWsGo_cons_ws false ' ' (b :: u) (by decide),
          collapseWsGo_cons_not true b u hb, hu]
        rfl
      · rw [collapseWsGo_cons_not false c (b :: u) (by simpa using hc), hrec]

theorem getLast?_dropWhile_isWs (l : List Char) :
    ∀ c : Char, l.getLast? = some c → isWs c = false →
      (l.dropWhile isWs).getLast? = some c := by
  induction l with
  | nil => intro c h; simp at h
  | cons a t ih =>
    intro c h hc
    by_cases ha : isWs a = true
    · cases t with
      | nil =>
        simp at h
        subst h
        rw [hc] at ha
        cases ha
      | cons x xs =>
        rw [List.getLast?_cons_cons] at h
        simpa [List.dropWhile_cons, ha] using ih c h hc
    · simpa [List.dropWhile_cons, ha] using h

theorem collapseWsGo_false_ne_nil (c : Char) (t : List Char) :
    collapseWsGo false (c :: t) ≠ [] := by
  by_cases h : isWs c = true <;> simp [collapseWsGo, h]

theorem collapseWsGo_true_ne_nil (l : List Char) :
    ∀ c : Char, l.getLast? = some c → isWs c = false →
      collapseWsGo true l ≠ [] := by
  induction l with
  | nil => intro c h; simp at h
  | cons a t ih =>
    intro c h hc
    by_cases ha : isWs a = true
    · cases t with
      | nil =>
        simp at h
        subst h
        rw [hc] at ha
        cases ha
      | cons x xs =>
        rw [List.getLast?_cons_cons] at h
        simpa [collapseWsGo, ha] using ih c h hc
    · simp [collapseWsGo, ha]

theorem noTrailWs_collapseWsGo (l : List Char) :
    ∀ b : Bool, noTrailWs l = true → noTrailWs (collapseWsGo b l) = true := by
  induction l with
  | nil => intro b _; rfl
  | cons a t ih =>
    intro b h
    by_cases ha : isWs a = true
    · cases t with
      | nil =>
        unfold noTrailWs at h
        simp [ha] at h
      | cons x xs =>
        have ht : noTrailWs (x :: xs) = true := by
          rwa [noTrailWs_cons_cons] at h
        rw [collapseWsGo_cons_ws b a (x :: xs) ha]
        cases hgl : (x :: xs).getLast? with
        | none => simp at hgl
        | some c =>
          have hcw : isWs c = false := by
            unfold noTrailWs at ht
            rw [hgl] at ht
            simpa using ht
          have hne := collapseWsGo_true_ne_nil (x :: xs) c hgl hcw
          have hXt := ih true ht
          cases hX : collapseWsGo true (x :: xs) with
          | nil => exact absurd hX hne
          | cons y ys =>
            rw [hX] at hXt
            cases b with
            | true => simpa using hXt
            | false =>
              show noTrailWs (' ' :: y :: ys) = true
              rwa [noTrailWs_cons_cons]
    · have ha' : isWs a = false := by simpa using ha
      rw [collapseWsGo_cons_not b a t ha']
      cases t with
      | nil => exact h
      | cons x xs =>
        have ht : noTrailWs (x :: xs) = true := by
          rwa [noTrailWs_cons_cons] at h
        have hXt := ih false ht
        have hne := collapseWsGo_false_ne_nil x xs
        cases hX : collapseWsGo false (x :: xs) with
        | nil => exact absurd hX hne
        | cons y ys =>
          rw [hX] at hXt
          rwa [noTrailWs_cons_cons]

theorem clean_shape_of_clean_text (o : Option String) (s : String)
    (h : clean_text o = some s) : CleanShape s := by
  cases o with
  | none => cases h
  | some v =>
    simp only [clean_text] at h
    by_cases hemp : (collapseWs (pyStripChars v.toList)).isEmpty = true
    · rw [if_pos hemp] at h
      cases h
    · rw [if_neg hemp] at h
      injection h with hs
      have htl : s.toList = collapseWs (pyStripChars v.toList) := by
        rw [← hs]
        exact List.toList_asString _
      have hne : collapseWs (pyStripChars v.toList) ≠ [] := by
        intro hn
        rw [hn] at hemp
        exact hemp rfl
      refine ⟨?_, ?_, ?_, ?_⟩
      · intro he
        rw [he] at htl
        exact hne htl.symm
      · rw [htl]
        exact noLeadWs_collapseWs _ (noLeadWs_pyStrip _)
      · rw [htl]
        exact noTrailWs_collapseWsGo _ false (noTrailWs_pyStrip _)
      · rw [htl]
        exact collapsedWsOk_collapseWsGo _ false

theorem clean_text_fixed (s : String) (h : CleanShape s) :
    clean_text (some s) = some s := by
  obtain ⟨hne, hlead, htrail, hok⟩ := h
  have hstrip : pyStripChars s.toList = s.toList := pyStripChars_eq_self _ hlead htrail
  have hcol : collapseWs s.toList = s.toList := collapseWsGo_eq_self _ hok
  have hnil : s.toList ≠ [] := by
    intro hl
    apply hne
    rw [← String.asString_toList s, hl]
    rfl
  have hemp : ¬ (collapseWs (pyStripChars s.toList)).isEmpty = true := by
    rw [hstrip, hcol]
    cases hl : s.toList with
    | nil => exact absurd hl hnil
    | cons a t => simp
  simp only [clean_text]
  rw [if_neg hemp, hstrip, hcol, String.asString_toList]

/-- Claim C10: text cleanup is idempotent - applying `clean_text` to its own
output returns that output unchanged; in particular absent propagates to
absent and every cleaned non-empty string is a fixed point. -/
theorem clean_text_idempotent (o : Option String) :
    clean_text (clean_text o) = clean_text o := by
  cases h : clean_text o with
  | none => rfl
  | some s => exact clean_text_fixed s (clean_shape_of_clean_text o s h)

theorem clean_text_isCleanOpt (o : Option String) : IsCleanOpt (clean_text o) :=
  fun s h => clean_shape_of_clean_text o s h

/-- Claim C7: in every normalized record each single-valued text field is
absent or a non-empty cleaned string (whitespace runs collapsed to single
spaces, no edge whitespace, never the empty string), and every derived
numeric field equals the parse of its corresponding text field - present
exactly when the parse succeeds, never defaulting to zero. -/
theorem normalize_listing_invariants (r : RawRecord) :
    IsCleanOpt (normalize_listing r).title ∧
    IsCleanOpt (normalize_listing r).url ∧
    IsCleanOpt (normalize_listing r).mark ∧
    IsCleanOpt (normalize_listing r).model ∧
    IsCleanOpt (normalize_listing r).modelVersion ∧
    IsCleanOpt (normalize_listing r).location ∧
    IsCleanOpt (normalize_listing r).dealerName ∧
    IsCleanOpt (normalize_listing r).dealerRatings ∧
    IsCleanOpt (normalize_listing r).price ∧
    IsCleanOpt (normalize_listing r).milage ∧
    IsCleanOpt (normalize_listing r).gearbox ∧
    IsCleanOpt (normalize_listing r).firstRegistration ∧
    IsCleanOpt (normalize_listing r).fuelType ∧
    IsCleanOpt (normalize_listing r).power ∧
    IsCleanOpt (normalize_listing r).seller ∧
    IsCleanOpt (normalize_listing r).contactName ∧
    IsCleanOpt (normalize_listing r).contactPhone ∧
    IsCleanOpt (normalize_listing r).bodyType ∧
    IsCleanOpt (normalize_listing r).drivetrain ∧
    IsCleanOpt (normalize_listing r).seats ∧
    IsCleanOpt (normalize_listing r).engineSize ∧
    IsCleanOpt (normalize_listing r).gears ∧
    IsCleanOpt (normalize_listing r).emissionClass ∧
    IsCleanOpt (normalize_listing r).colour ∧
    IsCleanOpt (normalize_listing r).manufacturerColour ∧
    IsCleanOpt (normalize_listing r).productionDate ∧
    (normalize_listing r).rawPrice = (parse_price (normalize_listing r).price).1 ∧
    (normalize_listing r).currency = (parse_price (normalize_listing r).price).2 ∧
    (normalize_listing r).mileageKm = parse_mileage (normalize_listing r).milage ∧
    (normalize_listing r).powerKW = (parse_power (normalize_listing r).power).1 ∧
    (normalize_listing r).powerHP = (parse_power (normalize_listing r).power).2 ∧
    (normalize_listing r).seatsNum = extract_number (normalize_listing r).seats ∧
    (normalize_listing r).engineSizeCC = extract_number (normalize_listing r).engineSize ∧
    (normalize_listing r).gearsNum = extract_number (normalize_listing r).gears :=
  ⟨clean_text_isCleanOpt _, clean_text_isCleanOpt _, clean_text_isCleanOpt _,
   clean_text_isCleanOpt _, clean_text_isCleanOpt _, clean_text_isCleanOpt _,
   clean_text_isCleanOpt _, clean_text_isCleanOpt _, clean_text_isCleanOpt _,
   clean_text_isCleanOpt _, clean_text_isCleanOpt _, clean_text_isCleanOpt _,
   clean_text_isCleanOpt _, clean_text_isCleanOpt _, clean_text_isCleanOpt _,
   clean_text_isCleanOpt _, clean_text_isCleanOpt _, clean_text_isCleanOpt _,
   clean_text_isCleanOpt _, clean_text_isCleanOpt _, clean_text_isCleanOpt _,
   clean_text_isCleanOpt _, clean_text_isCleanOpt _, clean_text_isCleanOpt _,
   clean_text_isCleanOpt _, clean_text_isCleanOpt _,
   rfl, rfl, rfl, rfl, rfl, rfl, rfl, rfl⟩

/-- Claim C3: price parsing detects the currency by the €/EUR, $/USD, CHF
precedence, takes the integer formed by the digit characters (absent when
none remain), maps absent or empty input to a fully absent result, and
keeps a detected currency when no digits are present; in particular
`€ 31,980` gives `(31980, EUR)` and `$ 12,500` gives `(12500, USD)`. The
universally quantified part compares `parse_price` against the spec-worded
`specPrice` and `specCurrency` on the stripped input. -/
theorem parse_price_spec :
    parse_price none = (none, none) ∧
    parse_price (some "") = (none, none) ∧
    parse_price (some "€ 31,980") = (some 31980, some "EUR") ∧
    parse_price (some "$ 12,500") = (some 12500, some "USD") ∧
    parse_price (some "CHF") = (none, some "CHF") ∧
    parse_price (some "approx. EUR") = (none, some "EUR") ∧
    parse_price (some "USD 5 EUR") = (some 5, some "EUR") ∧
    parse_price (some "$ 9 CHF") = (some 9, some "USD") ∧
    parse_price (some "1.234,56 km worth") = (some 123456, none) ∧
    (∀ s : String,
      parse_price (some s) = (specPrice (pyStripStr s), specCurrency (pyStripStr s))) := by
  refine ⟨by decide, by decide, by decide, by decide, by decide, by decide,
    by decide, by decide, by decide, ?_⟩
  intro s
  by_cases hs : s = ""
  · subst hs
    decide
  · simp only [parse_price, if_neg hs, specPrice, specCurrency]

/-- Claim C4: power parsing matches the kW pattern and the hp pattern
independently inside the same text (hp case-insensitively, kW not), so
either, both, or neither output may be present; absent (or empty) input
yields both absent; in particular `240 kW (326 hp)` gives `(240, 326)` and
`180 kW` gives `(180, absent)`. -/
theorem parse_power_spec :
    parse_power none = (none, none) ∧
    parse_power (some "") = (none, none) ∧
    parse_power (some "240 kW (326 hp)") = (some 240, some 326) ∧
    parse_power (some "180 kW") = (some 180, none) ∧
    parse_power (some "150 hp") = (none, some 150) ∧
    parse_power (some "326 HP") = (none, some 326) ∧
    parse_power (some "240 kw") = (none, none) ∧
    parse_power (some "Diesel") = (none, none) := by
  refine ⟨by decide, by decide, by decide, by decide, by decide, by decide,
    by decide, by decide⟩

theorem imgStep_nodup (acc : List String) (img : String) (h : acc.Nodup) :
    (imgStep acc img).Nodup := by
  unfold imgStep
  cases clean_text (some img) with
  | none => exact h
  | some s =>
    by_cases hs : s ∈ acc
    · simpa [hs] using h
    · simpa [hs, List.nodup_append] using h

theorem imagesFold_go_nodup (l : List String) :
    ∀ acc : List String, acc.Nodup → (List.foldl imgStep acc l).Nodup := by
  induction l with
  | nil => intro acc h; exact h
  | cons u t ih => intro acc h; exact ih (imgStep acc u) (imgStep_nodup acc u h)

theorem normalizeImages_nodup (v : FieldValue) : (normalizeImages v).Nodup := by
  cases v with
  | absent => exact List.nodup_nil
  | text s =>
    by_cases hs : s = ""
    · simp [normalizeImages, hs]
    · simpa [normalizeImages, hs] using
        imagesFold_go_nodup [s] [] List.nodup_nil
  | items l => exact imagesFold_go_nodup l [] List.nodup_nil
  | other shown => exact List.nodup_nil

/-- Claim C8: a string-valued feature field is split on `;` and `,` with
each part cleaned and empties dropped; a list-valued feature field is
cleaned element-wise with empties dropped but duplicates kept; an absent
feature field becomes the empty list; the images list is additionally
deduplicated keeping the first occurrence in order (and is always without
duplicates). -/
theorem normalize_list_fields_spec :
    (∀ v : FieldValue, (normalizeImages v).Nodup) ∧
    (normalize_listing { emptyRaw with comfort := .text "ABS; Airbag,Cruise control" }).comfort =
      [some "ABS", some "Airbag", some "Cruise control"] ∧
    (normalize_listing { emptyRaw with safety := .items ["ABS", "", "ABS"] }).safety =
      [some "ABS", some "ABS"] ∧
    (normalize_listing { emptyRaw with media := .absent }).media = [] ∧
    (normalize_listing { emptyRaw with extras := .items ["  ", "Towbar", ""] }).extras =
      [some "Towbar"] ∧
    (normalize_listing { emptyRaw with images := .items ["a.jpg", "a.jpg", "b.jpg"] }).images =
      ["a.jpg", "b.jpg"] :=
  ⟨normalizeImages_nodup, by decide, by decide, by decide, by decide, by decide⟩

/-! Association-list lemmas for the dealer aggregation. -/

theorem lookup_cons_ne {β : Type} (k k' : String) (v : β) (t : List (String × β))
    (h : k' ≠ k) : List.lookup k' ((k, v) :: t) = List.lookup k' t := by
  rw [List.lookup_cons]
  have hb : (k' == k) = false := beq_eq_false_iff_ne.mpr h
  rw [hb]

theorem lookup_mapValAt_self {β : Type} (l : List (String × β)) (k : String) (g : β → β) :
    List.lookup k (mapValAt l k g) = (List.lookup k l).map g := by
  induction l with
  | nil => rfl
  | cons p t ih =>
    obtain ⟨a, b⟩ := p
    by_cases hp : a = k
    · subst hp
      simp [mapValAt]
    · have hk : k ≠ a := fun he => hp he.symm
      rw [show mapValAt ((a, b) :: t) k g = (a, b) :: mapValAt t k g from by
        simp [mapValAt, hp]]
      rw [lookup_cons_ne _ _ _ _ hk, lookup_cons_ne _ _ _ _ hk, ih]

theorem lookup_mapValAt_ne {β : Type} (l : List (String × β)) (k k' : String) (g : β → β)
    (h : k' ≠ k) : List.lookup k' (mapValAt l k g) = List.lookup k' l := by
  induction l with
  | nil => rfl
  | cons p t ih =>
    obtain ⟨a, b⟩ := p
    by_cases hp : a = k
    · subst hp
      rw [show mapValAt ((a, b) :: t) a g = (a, g b) :: mapValAt t a g from by
        simp [mapValAt]]
      rw [lookup_cons_ne _ _ _ _ h, lookup_cons_ne _ _ _ _ h, ih]
    · by_cases hq : k' = a
      · subst hq
        rw [show mapValAt ((k', b) :: t) k g = (k', b) :: mapValAt t k g from by
          simp [mapValAt, hp]]
        simp
      · rw [show mapValAt ((a, b) :: t) k g = (a, b) :: mapValAt t k g from by
          simp [mapValAt, hp]]
        rw [lookup_cons_ne _ _ _ _ hq, lookup_cons_ne _ _ _ _ hq, ih]

theorem lookup_assocSet_self {β : Type} (l : List (String × β)) (k : String) (v : β) :
    List.lookup k (assocSet l k v) = some v := by
  unfold assocSet
  by_cases h : (List.lookup k l).isSome = true
  · rw [if_pos h, lookup_mapValAt_self]
    cases hl : List.lookup k l with
    | none => rw [hl] at h; cases h
    | some w => rfl
  · rw [if_neg h, List.lookup_append]
    cases hl : List.lookup k l with
    | some w => rw [hl] at h; exact absurd rfl h
    | none => simp

theorem lookup_assocSet_ne {β : Type} (l : List (String × β)) (k k' : String) (v : β)
    (h : k' ≠ k) : List.lookup k' (assocSet l k v) = List.lookup k' l := by
  unfold assocSet
  by_cases hs : (List.lookup k l).isSome = true
  · rw [if_pos hs, lookup_mapValAt_ne _ _ _ _ h]
  · rw [if_neg hs, List.lookup_append]
    cases hl : List.lookup k' l with
    | some w => simp
    | none => simp [lookup_cons_ne _ _ _ _ h]

theorem filter_len_zero_iff_find?_none {α : Type} (p : α → Bool) (l : List α) :
    ((l.filter p).length = 0) ↔ l.find? p = none := by
  simp [List.length_eq_zero, List.filter_eq_nil_iff, List.find?_eq_none]

theorem summaryInv_nil : SummaryInv [] ([], []) := by
  intro k
  exact ⟨rfl, rfl⟩

theorem buildStep_inv (done : List DealerRec)
    (st : List (String × Nat) × List (String × DealerEntry)) (r : DealerRec)
    (h : SummaryInv done st) : SummaryInv (done ++ [r]) (buildStep st r) := by
  intro k
  obtain ⟨hc, hs⟩ := h k
  simp only [buildStep]
  by_cases hk : dealerKeyOf r = k
  · subst hk
    have hfil : ((done ++ [r]).filter (fun x => dealerKeyOf x == dealerKeyOf r)).length =
        (done.filter (fun x => dealerKeyOf x == dealerKeyOf r)).length + 1 := by
      simp [List.filter_append]
    constructor
    · rw [lookup_assocSet_self, hfil, hc]
      by_cases h0 : (done.filter (fun x => dealerKeyOf x == dealerKeyOf r)).length = 0
      · simp [h0]
      · simp [h0]
    · rw [lookup_mapValAt_self]
      cases hfind : done.find? (fun x => dealerKeyOf x == dealerKeyOf r) with
      | none =>
        have hlook : List.lookup (dealerKeyOf r) st.2 = none := by rw [hs, hfind]
        have h0 : (done.filter (fun x => dealerKeyOf x == dealerKeyOf r)).length = 0 :=
          (filter_len_zero_iff_find?_none _ _).mpr hfind
        rw [hc]
        simp only [hlook, List.lookup_append, Option.none_or]
        rw [List.find?_append, hfind]
        simp [hfil, h0]
      | some r0 =>
        have hn0 : (done.filter (fun x => dealerKeyOf x == dealerKeyOf r)).length ≠ 0 := by
          rw [Ne, filter_len_zero_iff_find?_none, hfind]
          simp
        have hlook : List.lookup (dealerKeyOf r) st.2 =
            some ⟨dealerKeyOf r, r0.location, r0.dealerRatings,
              (done.filter (fun x => dealerKeyOf x == dealerKeyOf r)).length⟩ := by
          rw [hs, hfind]
        rw [hc, if_neg hn0]
        simp only [hlook]
        rw [List.find?_append, hfind]
        simp [hfil]
  · have hbeq : (dealerKeyOf r == k) = false := by
      simp [hk]
    have hlen : ((done ++ [r]).filter (fun x => dealerKeyOf x == k)).length =
        (done.filter (fun x => dealerKeyOf x == k)).length := by
      simp [List.filter_append, hbeq]
    have hfind2 : (done ++ [r]).find? (fun x => dealerKeyOf x == k) =
        done.find? (fun x => dealerKeyOf x == k) := by
      rw [List.find?_append]
      cases hf : done.find? (fun x => dealerKeyOf x == k) with
      | some w => rfl
      | none => simp [hbeq]
    have hkk : k ≠ dealerKeyOf r := fun he => hk he.symm
    constructor
    · rw [lookup_assocSet_ne _ _ _ _ hkk, hlen]
      exact hc
    · rw [lookup_mapValAt_ne _ _ _ _ hkk, hfind2, hlen]
      cases hlook : List.lookup (dealerKeyOf r) st.2 with
      | some w =>
        simp only [hlook]
        exact hs
      | none =>
        simp only [hlook, List.lookup_append]
        rw [lookup_cons_ne _ _ _ _ hkk]
        simp only [List.lookup_nil, Option.or_none]
        exact hs

theorem build_fold_inv (rest : List DealerRec) :
    ∀ (done : List DealerRec) (st : List (String × Nat) × List (String × DealerEntry)),
      SummaryInv done st → SummaryInv (done ++ rest) (rest.foldl buildStep st) := by
  induction rest with
  | nil => intro done st h; simpa using h
  | cons r rest' ih =>
    intro done st h
    have h2 := ih (done ++ [r]) (buildStep st r) (buildStep_inv done st r h)
    simpa using h2

/-- Claim C1 (amended): the dealer summary maps a dealer key (with the
`"Unknown dealer"` sentinel for blank names) to an entry whose
`listingCount` is the number of records with that key, and whose location
and ratings come from the FIRST record processed for that key -
`dict.setdefault` gives first-write-wins, not the last-write-wins stated by
the spec. -/
theorem dealer_summary_characterization (listings : List DealerRec) (k : String) :
    List.lookup k (build_summary listings) =
      match listings.find? (fun x => dealerKeyOf x == k) with
      | none => none
      | some r0 => some ⟨k, r0.location, r0.dealerRatings,
          (listings.filter (fun x => dealerKeyOf x == k)).length⟩ := by
  have h := build_fold_inv listings [] ([], []) summaryInv_nil
  simpa [build_summary] using (h k).2

/-- Claim C1 (counterexample): for two records of dealer `A` with different
locations and ratings, the summary keeps the FIRST record's location and
ratings, refuting the spec's last-write-wins description (the count of 2 is
correct). -/
theorem dealer_summary_last_write_refuted :
    List.lookup "A" (build_summary
      [⟨some "A", some "L1", some "R1"⟩, ⟨some "A", some "L2", some "R2"⟩]) =
      some ⟨"A", some "L1", some "R1", 2⟩ ∧
    List.lookup "A" (build_summary
      [⟨some "A", some "L1", some "R1"⟩, ⟨some "A", some "L2", some "R2"⟩]) ≠
      some ⟨"A", some "L2", some "R2", 2⟩ := by
  constructor
  · decide
  · decide

/-! Termination of the pagination loop via the visited set. -/

theorem length_filter_mono {α : Type} (l : List α) (p q : α → Bool)
    (himp : ∀ a, q a = true → p a = true) :
    (l.filter q).length ≤ (l.filter p).length := by
  induction l with
  | nil => simp
  | cons a t ih =>
    cases hq : q a with
    | true =>
      have hp := himp a hq
      simp [List.filter_cons, hp, hq]
      omega
    | false =>
      cases hp : p a with
      | true =>
        simp [List.filter_cons, hp, hq]
        omega
      | false =>
        simpa [List.filter_cons, hp, hq] using ih

theorem length_filter_lt_of_flip {α : Type} (l : List α) (p q : α → Bool)
    (himp : ∀ a, q a = true → p a = true) (u : α) (hu : u ∈ l)
    (hpu : p u = true) (hqu : q u = false) :
    (l.filter q).length < (l.filter p).length := by
  induction l with
  | nil => cases hu
  | cons a t ih =>
    rcases List.mem_cons.mp hu with rfl | hmem
    · simp only [List.filter_cons, hpu, hqu, if_true, if_false, Bool.false_eq_true]
      simp only [List.length_cons]
      exact Nat.lt_succ_of_le (length_filter_mono t p q himp)
    · cases hq : q a with
      | true =>
        have hp := himp a hq
        simp only [List.filter_cons, hp, hq, if_true, List.length_cons]
        exact Nat.succ_lt_succ (ih hmem)
      | false =>
        cases hp : p a with
        | true =>
          simp only [List.filter_cons, hp, hq, if_true, if_false, Bool.false_eq_true,
            List.length_cons]
          exact Nat.lt_succ_of_le (Nat.le_of_lt (ih hmem))
        | false =>
          simpa [List.filter_cons, hp, hq] using ih hmem

theorem mem_keys_of_lookup {β : Type} (l : List (String × β)) (k : String) (v : β)
    (h : List.lookup k l = some v) : k ∈ l.map Prod.fst := by
  induction l with
  | nil => cases h
  | cons p t ih =>
    obtain ⟨a, b⟩ := p
    by_cases hk : k = a
    · simp [hk]
    · rw [lookup_cons_ne _ _ _ _ hk] at h
      simpa using Or.inr (ih h)

theorem unvisitedKeys_lt (env : CrawlEnv) (visited : List String) (u : String)
    (hu : u ∈ env.map Prod.fst) (hnv : u ∉ visited) :
    unvisitedKeys env (u :: visited) < unvisitedKeys env visited := by
  unfold unvisitedKeys
  refine length_filter_lt_of_flip _ _ _ ?_ u hu ?_ ?_
  · intro a ha
    simp only [Bool.not_eq_true', decide_eq_false_iff_not, List.mem_cons, not_or] at ha
    simp [ha.2]
  · simp [hnv]
  · simp

theorem collectLoop_stop (env : CrawlEnv) (maxRecords fuel : Nat) (url : String)
    (visited acc trace : List String)
    (h : url = "" ∨ maxRecords ≤ acc.length ∨ url ∈ visited) :
    collectLoop env maxRecords (fuel + 1) (some url) visited acc trace = (acc, trace) := by
  rcases h with h | h | h
  · simp [collectLoop, h]
  · simp [collectLoop, h]
  · simp [collectLoop, h]

theorem collectLoop_fetch_fail (env : CrawlEnv) (maxRecords fuel : Nat) (url : String)
    (visited acc trace : List String) (h1 : url ≠ "")
    (h2 : ¬ maxRecords ≤ acc.length) (h3 : url ∉ visited)
    (hl : List.lookup url env = none) :
    collectLoop env maxRecords (fuel + 1) (some url) visited acc trace =
      (acc, trace ++ [url]) := by
  simp only [collectLoop, if_neg h1, if_neg h2, if_neg h3, hl]

theorem collectLoop_last_page (env : CrawlEnv) (maxRecords fuel : Nat) (url : String)
    (visited acc trace : List String) (page : SearchPage) (h1 : url ≠ "")
    (h2 : ¬ maxRecords ≤ acc.length) (h3 : url ∉ visited)
    (hl : List.lookup url env = some page) (hnu : page.nextUrl = none) :
    collectLoop env maxRecords (fuel + 1) (some url) visited acc trace =
      (addUnique acc page.pageUrls, trace ++ [url]) := by
  simp only [collectLoop, if_neg h1, if_neg h2, if_neg h3, hl, hnu]

theorem collectLoop_next_page (env : CrawlEnv) (maxRecords fuel : Nat) (url nu : String)
    (visited acc trace : List String) (page : SearchPage) (h1 : url ≠ "")
    (h2 : ¬ maxRecords ≤ acc.length) (h3 : url ∉ visited)
    (hl : List.lookup url env = some page) (hnu : page.nextUrl = some nu) :
    collectLoop env maxRecords (fuel + 1) (some url) visited acc trace =
      collectLoop env maxRecords fuel (some nu) (url :: visited)
        (addUnique acc page.pageUrls) (trace ++ [url]) := by
  simp only [collectLoop, if_neg h1, if_neg h2, if_neg h3, hl, hnu]

theorem collectLoop_fuel_stable (env : CrawlEnv) (maxRecords : Nat) :
    ∀ (fuel fuel' : Nat) (next? : Option String) (visited acc trace : List String),
      unvisitedKeys env visited < fuel → unvisitedKeys env visited < fuel' →
      collectLoop env maxRecords fuel next? visited acc trace =
        collectLoop env maxRecords fuel' next? visited acc trace := by
  intro fuel
  induction fuel with
  | zero =>
    intro fuel' next? visited acc trace h _
    exact absurd h (Nat.not_lt_zero _)
  | succ f ih =>
    intro fuel' next? visited acc trace h h'
    cases fuel' with
    | zero => exact absurd h' (Nat.not_lt_zero _)
    | succ f' =>
      cases next? with
      | none => rfl
      | some url =>
        by_cases h1 : url = ""
        · rw [collectLoop_stop _ _ _ _ _ _ _ (Or.inl h1),
            collectLoop_stop _ _ _ _ _ _ _ (Or.inl h1)]
        · by_cases h2 : maxRecords ≤ acc.length
          · rw [collectLoop_stop _ _ _ _ _ _ _ (Or.inr (Or.inl h2)),
              collectLoop_stop _ _ _ _ _ _ _ (Or.inr (Or.inl h2))]
          · by_cases h3 : url ∈ visited
            · rw [collectLoop_stop _ _ _ _ _ _ _ (Or.inr (Or.inr h3)),
                collectLoop_stop _ _ _ _ _ _ _ (Or.inr (Or.inr h3))]
            · cases hl : List.lookup url env with
              | none =>
                rw [collectLoop_fetch_fail _ _ _ _ _ _ _ h1 h2 h3 hl,
                  collectLoop_fetch_fail _ _ _ _ _ _ _ h1 h2 h3 hl]
              | some page =>
                cases hnu : page.nextUrl with
                | none =>
                  rw [collectLoop_last_page _ _ _ _ _ _ _ _ h1 h2 h3 hl hnu,
                    collectLoop_last_page _ _ _ _ _ _ _ _ h1 h2 h3 hl hnu]
                | some nu =>
                  rw [collectLoop_next_page _ _ _ _ _ _ _ _ _ h1 h2 h3 hl hnu,
                    collectLoop_next_page _ _ _ _ _ _ _ _ _ h1 h2 h3 hl hnu]
                  have hdec := unvisitedKeys_lt env visited url
                    (mem_keys_of_lookup _ _ _ hl) h3
                  exact ih f' (some nu) (url :: visited)
                    (addUnique acc page.pageUrls) (trace ++ [url])
                    (by omega) (by omega)

/-- Claim C6: search-page expansion terminates for every seed because of
the visited-pages set, and on a cyclic page graph it stops at the first
repeated page URL returning what was collected so far. The first conjunct
states termination: the fuelled loop is already stable at `env.length + 1`
iterations, so giving it any more fuel never changes the result. The second
conjunct runs a two-page cycle `a -> b -> a`: both pages are fetched once
and the URLs of both pages are returned. The third runs a page linking to
itself: it is fetched once and its URLs are returned. -/
theorem search_expansion_terminates_on_cycles :
    (∀ (env : CrawlEnv) (maxRecords : Nat) (start : String) (fuel : Nat),
       env.length + 1 ≤ fuel →
       collectLoop env maxRecords fuel (some start) [] [] [] =
         collect_listing_urls_t env maxRecords start) ∧
    (∀ (a b : String) (pa pb : List String) (maxRecords : Nat),
       a ≠ "" → b ≠ "" → a ≠ b → 0 < maxRecords →
       (addUnique [] pa).length < maxRecords →
       collect_listing_urls_t [(a, ⟨pa, some b⟩), (b, ⟨pb, some a⟩)] maxRecords a =
         (addUnique (addUnique [] pa) pb, [a, b])) ∧
    (∀ (a : String) (pa : List String) (maxRecords : Nat),
       a ≠ "" → 0 < maxRecords →
       collect_listing_urls_t [(a, ⟨pa, some a⟩)] maxRecords a =
         (addUnique [] pa, [a])) := by
  refine ⟨?_, ?_, ?_⟩
  · intro env maxRecords start fuel hfuel
    unfold collect_listing_urls_t
    apply collectLoop_fuel_stable
    · have hle : unvisitedKeys env [] ≤ env.length := by
        have h1 := List.length_filter_le (fun k => !(decide (k ∈ ([] : List String))))
          (env.map Prod.fst)
        simpa [unvisitedKeys] using h1
      omega
    · have hle : unvisitedKeys env [] ≤ env.length := by
        have h1 := List.length_filter_le (fun k => !(decide (k ∈ ([] : List String))))
          (env.map Prod.fst)
        simpa [unvisitedKeys] using h1
      omega
  · intro a b pa pb maxRecords ha hb hab hmax hlen
    have hla : List.lookup a [(a, SearchPage.mk pa (some b)), (b, SearchPage.mk pb (some a))] =
        some (SearchPage.mk pa (some b)) := by
      simp
    have hlb : List.lookup b [(a, SearchPage.mk pa (some b)), (b, SearchPage.mk pb (some a))] =
        some (SearchPage.mk pb (some a)) := by
      rw [lookup_cons_ne _ _ _ _ (Ne.symm hab)]
      simp
    show collectLoop _ maxRecords (2 + 1) (some a) [] [] [] = _
    rw [collectLoop_next_page _ _ _ _ b _ _ _ _ ha (by simp only [List.length_nil]; omega) (by simp) hla rfl]
    show collectLoop _ maxRecords (1 + 1) (some b) [a] (addUnique [] pa) ([] ++ [a]) = _
    rw [collectLoop_next_page _ _ _ _ a _ _ _ _ hb (by omega) (by simp [Ne.symm hab]) hlb rfl]
    show collectLoop _ maxRecords (0 + 1) (some a) [b, a]
      (addUnique (addUnique [] pa) pb) (([] ++ [a]) ++ [b]) = _
    rw [collectLoop_stop _ _ _ _ _ _ _ (Or.inr (Or.inr (by simp)))]
    simp
  · intro a pa maxRecords ha hmax
    have hla : List.lookup a [(a, SearchPage.mk pa (some a))] =
        some (SearchPage.mk pa (some a)) := by
      simp
    show collectLoop _ maxRecords (1 + 1) (some a) [] [] [] = _
    rw [collectLoop_next_page _ _ _ _ a _ _ _ _ ha (by simp only [List.length_nil]; omega) (by simp) hla rfl]
    show collectLoop _ maxRecords (0 + 1) (some a) [a] (addUnique [] pa) ([] ++ [a]) = _
    rw [collectLoop_stop _ _ _ _ _ _ _ (Or.inr (Or.inr (by simp)))]
    simp

theorem search_expansion_terminates_on_cycles_witness :
    collect_listing_urls_t
      [("https://s.test/page", ⟨["https://s.test/angebote/car1"], some "https://s.test/page"⟩)]
      5 "https://s.test/page" =
      (["https://s.test/angebote/car1"], ["https://s.test/page"]) := by
  have h := search_expansion_terminates_on_cycles.2.2 "https://s.test/page"
    ["https://s.test/angebote/car1"] 5 (by decide) (by decide)
  rw [h]
  decide

/-! Seed preparation: cap semantics and order preservation. -/

theorem prefix_addUnique (urls : List String) :
    ∀ acc : List String, acc <+: addUnique acc urls := by
  induction urls with
  | nil => intro acc; exact List.prefix_rfl
  | cons u t ih =>
    intro acc
    have h1 : acc <+: (if u ∈ acc then acc else acc ++ [u]) := by
      by_cases hu : u ∈ acc
      · simp [hu]
      · simpa [hu] using List.prefix_append acc [u]
    exact h1.trans (ih _)

theorem prefix_prepareGo (env : CrawlEnv) (maxRecords : Nat) (seeds : List String) :
    ∀ acc trace : List String, acc <+: (prepareGo env maxRecords seeds acc trace).1 := by
  induction seeds with
  | nil => intro acc trace; exact List.prefix_rfl
  | cons s rest ih =>
    intro acc trace
    by_cases h1 : pyStripStr s = ""
    · simpa [prepareGo, h1] using ih acc trace
    · by_cases h2 : is_detail_url (pyStripStr s) = true
      · have hpre : acc <+: (if pyStripStr s ∈ acc then acc else acc ++ [pyStripStr s]) := by
          by_cases hm : pyStripStr s ∈ acc
          · simp [hm]
          · simpa [hm] using List.prefix_append acc [pyStripStr s]
        simp only [prepareGo, if_neg h1, if_pos h2]
        exact hpre.trans (ih _ _)
      · by_cases h3 : maxRecords ≤
            (addUnique acc (collect_listing_urls_t env maxRecords (pyStripStr s)).1).length
        · simp only [prepareGo, if_neg h1, if_neg h2, if_pos h3]
          exact prefix_addUnique _ acc
        · simp only [prepareGo, if_neg h1, if_neg h2, if_neg h3]
          exact (prefix_addUnique _ acc).trans (ih _ _)

/-- Claim C2 (amended): reaching `maxRecords` breaks the seed loop only
right after a search seed's results are merged - the first conjunct shows
the loop then returns at once, never touching the remaining seeds. A detail
seed is added with no cap check at all (second conjunct), so a cap already
reached through detail seeds does not stop the next search seed from being
expanded. Seeds are processed in input order and the accumulator only ever
grows by appending (third conjunct), preserving first-seen order. -/
theorem prepare_cap_break_semantics :
    (∀ (env : CrawlEnv) (maxRecords : Nat) (s : String) (rest acc trace : List String),
       pyStripStr s ≠ "" →
       is_detail_url (pyStripStr s) = false →
       maxRecords ≤
         (addUnique acc (collect_listing_urls_t env maxRecords (pyStripStr s)).1).length →
       prepareGo env maxRecords (s :: rest) acc trace =
         (addUnique acc (collect_listing_urls_t env maxRecords (pyStripStr s)).1,
          trace ++ (collect_listing_urls_t env maxRecords (pyStripStr s)).2)) ∧
    (∀ (env : CrawlEnv) (maxRecords : Nat) (s : String) (rest acc trace : List String),
       pyStripStr s ≠ "" →
       is_detail_url (pyStripStr s) = true →
       prepareGo env maxRecords (s :: rest) acc trace =
         prepareGo env maxRecords rest
           (if pyStripStr s ∈ acc then acc else acc ++ [pyStripStr s]) trace) ∧
    (∀ (env : CrawlEnv) (maxRecords : Nat) (seeds acc trace : List String),
       acc <+: (prepareGo env maxRecords seeds acc trace).1) := by
  refine ⟨?_, ?_, ?_⟩
  · intro env maxRecords s rest acc trace h1 h2 h3
    simp only [prepareGo, if_neg h1, h2, Bool.false_eq_true, if_false, if_pos h3]
  · intro env maxRecords s rest acc trace h1 h2
    simp only [prepareGo, if_neg h1, if_pos h2]
  · intro env maxRecords seeds acc trace
    exact prefix_prepareGo env maxRecords seeds acc trace

theorem prepare_cap_break_semantics_witness :
    prepareGo [("https://w.test/search", ⟨["https://w.test/angebote/u1"], none⟩)] 1
      ["https://w.test/search", "https://w.test/angebote/d9"] [] [] =
      (["https://w.test/angebote/u1"], ["https://w.test/search"]) := by
  have h := prepare_cap_break_semantics.1
    [("https://w.test/search", ⟨["https://w.test/angebote/u1"], none⟩)] 1
    "https://w.test/search" ["https://w.test/angebote/d9"] [] []
    (by decide) (by decide) (by decide)
  rw [h]
  decide

/-- Claim C2 (counterexample): with `maxRecords = 2`, the two detail seeds
alone already fill the accumulator to the cap (first conjunct), yet the
search seed that follows is still expanded - its page is fetched, as the
fetch trace of the full run shows (second conjunct) - and its URL is merged
so the accumulator grows to 3 before the final truncation (third conjunct),
refuting the claim that expansion of a later search seed stops immediately
once the cap is reached. -/
theorem prepare_cap_not_immediate_refuted :
    (prepareGo [("https://x.test/search", ⟨["https://x.test/angebote/u1"], none⟩)] 2
      ["https://x.test/angebote/d1", "https://x.test/angebote/d2"] [] []).1.length = 2 ∧
    (prepareT [("https://x.test/search", ⟨["https://x.test/angebote/u1"], none⟩)] 2
      ["https://x.test/angebote/d1", "https://x.test/angebote/d2",
        "https://x.test/search"]).2 = ["https://x.test/search"] ∧
    (prepareGo [("https://x.test/search", ⟨["https://x.test/angebote/u1"], none⟩)] 2
      ["https://x.test/angebote/d1", "https://x.test/angebote/d2",
        "https://x.test/search"] [] []).1.length = 3 := by
  refine ⟨by decide, by decide, by decide⟩

/-- Claim C5: the prepared URL list dispatched by the orchestrator never
exceeds `maxRecords`, whatever the seeds and however many URLs a single
seed's pagination yields - the final truncation enforces the cap. -/
theorem prepare_respects_max_records (env : CrawlEnv) (maxRecords : Nat)
    (startUrls : List String) (h : 0 < maxRecords) :
    (prepare_listing_urls env maxRecords startUrls).length ≤ maxRecords := by
  unfold prepare_listing_urls prepareT
  by_cases hl : maxRecords < (prepareGo env maxRecords startUrls [] []).1.length
  · simp only [if_pos hl, List.length_take]
    omega
  · simp only [if_neg hl]
    omega

theorem prepare_respects_max_records_witness :
    0 < 1 ∧
    (prepare_listing_urls
      [("https://y.test/s", ⟨["https://y.test/angebote/a1", "https://y.test/angebote/a2",
        "https://y.test/angebote/a3"], none⟩)] 1 ["https://y.test/s"]).length ≤ 1 :=
  ⟨by decide,
   prepare_respects_max_records
     [("https://y.test/s", ⟨["https://y.test/angebote/a1", "https://y.test/angebote/a2",
       "https://y.test/angebote/a3"], none⟩)] 1 ["https://y.test/s"] (by decide)⟩

/-! The concurrent fetch stage: partial failure isolation. -/

theorem scrapeCollect_go_length (outcome : String → TaskOutcome) (l : List String) :
    ∀ acc : List NormalizedRecord,
      (List.foldl (collectStep outcome) acc l).length =
        acc.length + (l.filter (fun u => isOk (outcome u))).length := by
  induction l with
  | nil => intro acc; simp
  | cons u t ih =>
    intro acc
    rw [List.foldl_cons]
    cases ho : outcome u with
    | ok r =>
      have hstep : collectStep outcome acc u = acc ++ [r] := by
        simp [collectStep, ho]
      have hfil : List.filter (fun u => isOk (outcome u)) (u :: t) =
          u :: List.filter (fun u => isOk (outcome u)) t := by
        simp [List.filter_cons, ho, isOk]
      rw [hstep, ih, hfil]
      simp only [List.length_append, List.length_cons, List.length_nil]
      omega
    | fetchFail =>
      have hstep : collectStep outcome acc u = acc := by
        simp [collectStep, ho]
      have hfil : List.filter (fun u => isOk (outcome u)) (u :: t) =
          List.filter (fun u => isOk (outcome u)) t := by
        simp [List.filter_cons, ho, isOk]
      rw [hstep, ih, hfil]
    | raised =>
      have hstep : collectStep outcome acc u = acc := by
        simp [collectStep, ho]
      have hfil : List.filter (fun u => isOk (outcome u)) (u :: t) =
          List.filter (fun u => isOk (outcome u)) t := by
        simp [List.filter_cons, ho, isOk]
      rw [hstep, ih, hfil]

theorem length_filter_split {α : Type} (p q : α → Bool) (hq : ∀ a, q a = !(p a))
    (l : List α) : (l.filter p).length + (l.filter q).length = l.length := by
  induction l with
  | nil => rfl
  | cons a t ih =>
    cases h : p a with
    | true =>
      have h2 : q a = false := by rw [hq, h]; rfl
      simp only [List.filter_cons, h, h2, if_true, if_false, Bool.false_eq_true,
        List.length_cons]
      omega
    | false =>
      have h2 : q a = true := by rw [hq, h]; rfl
      simp only [List.filter_cons, h, h2, if_true, if_false, Bool.false_eq_true,
        List.length_cons]
      omega

/-- Claim C9: when the dispatched URLs contain exactly one whose task does
not succeed (failed fetch or raised exception) and the rest succeed, the
collected result - taken over any completion order of the dispatched
URLs - has exactly one record fewer than the number of URLs; failures are
skipped in the loop (the exception is caught there), so nothing aborts the
run and no exception escapes. -/
theorem scrape_isolates_single_failure (urls completed : List String)
    (outcome : String → TaskOutcome) (hperm : completed.Perm urls)
    (hone : (urls.filter (fun u => !isOk (outcome u))).length = 1) :
    (scrapeCollect outcome completed).length = urls.length - 1 := by
  have hlen : (scrapeCollect outcome completed).length =
      (completed.filter (fun u => isOk (outcome u))).length := by
    unfold scrapeCollect
    rw [scrapeCollect_go_length]
    simp
  have hpf : (completed.filter (fun u => isOk (outcome u))).length =
      (urls.filter (fun u => isOk (outcome u))).length :=
    (hperm.filter _).length_eq
  have hsplit := length_filter_split (fun u => isOk (outcome u))
    (fun u => !isOk (outcome u)) (fun a => rfl) urls
  omega

theorem scrape_isolates_single_failure_witness :
    (scrapeCollect (fun u => if u = "u2" then TaskOutcome.raised
        else TaskOutcome.ok (normalize_listing emptyRaw)) ["u3", "u1", "u2"]).length =
      ["u1", "u2", "u3"].length - 1 :=
  scrape_isolates_single_failure ["u1", "u2", "u3"] ["u3", "u1", "u2"] _
    (by decide) (by decide)

end Autoscout
